import Mathlib

/-!
Verification development for the ExScroller SDK PGP compiler (src/sdk.js).

The definitions below are a shallow embedding of the JavaScript source:
bytes are Nat values, byte arrays are List Nat, machine arithmetic is
expressed with explicit bitwise operations and mod 256 wherever the
source relies on masking or on Uint8Array storage coercion.  Stateful
loops of the source become structural recursions, and the per-line
generator callbacks of dynamic sections become Lean functions on an
explicit context record.
-/

set_option maxRecDepth 4000

namespace SDK

/-- Printable width of a raster line in pixels (constant WIDTH in sdk.js). -/
def WIDTH : Nat := 576

/-- Bytes per raster line (constant BPL in sdk.js). -/
def BPL : Nat := 72

/-- Uint8Array storage coercion: JavaScript stores values modulo 256. -/
def byte (n : Nat) : Nat := n % 256

namespace PGP

/-- Little-endian 16-bit field encoder (PGP.writeU16LE). -/
def writeU16LE (v : Nat) : List Nat := [v &&& 0xFF, (v >>> 8) &&& 0xFF]

/-- Big-endian 16-bit field encoder (PGP.writeU16BE). -/
def writeU16BE (v : Nat) : List Nat := [(v >>> 8) &&& 0xFF, v &&& 0xFF]

/-- One shift step of the inner loop of PGP.crc8: shift left, xor the
polynomial 0x07 when bit 7 was set.  Mirrors the source expression
crc = (crc and 0x80) ? ((crc shl 1) xor 0x07) : (crc shl 1). -/
def crc8Round (crc : Nat) : Nat :=
  if crc &&& 0x80 ≠ 0 then (crc <<< 1) ^^^ 0x07 else crc <<< 1

/-- One byte step of PGP.crc8: xor the byte in, run eight shift rounds,
then mask to eight bits as the source does after the inner loop. -/
def crc8Byte (crc b : Nat) : Nat := (crc8Round^[8] (crc ^^^ b)) &&& 0xFF

/-- Checksum of PGP.crc8: fold over the data with initial value 0. -/
def crc8 (data : List Nat) : Nat := data.foldl crc8Byte 0

/-- Bytes 1 to 3+len of a frame: command byte, two little-endian length
bytes, then the payload.  This is the region buf.slice(1, 4+len) that
PGP.frame checksums. -/
def frameBody (cmd : Nat) (payload : List Nat) : List Nat :=
  byte cmd :: (payload.length &&& 0xFF) :: ((payload.length >>> 8) &&& 0xFF) :: payload

/-- Frame builder PGP.frame: sync byte 0xE0, command, 16-bit length
little-endian, payload, then the crc8 of the body region. -/
def frame (cmd : Nat) (payload : List Nat) : List Nat :=
  0xE0 :: frameBody cmd payload ++ [crc8 (frameBody cmd payload)]

/-- Command SET_SPEED (PGP.setSpeed): speed in little-endian order. -/
def setSpeed (pps : Nat) : List Nat :=
  frame 0x22 [pps &&& 0xFF, (pps >>> 8) &&& 0xFF]

/-- Command SET_HEAT (PGP.setHeat): heat time in little-endian order. -/
def setHeat (us : Nat) : List Nat :=
  frame 0x24 [us &&& 0xFF, (us >>> 8) &&& 0xFF]

/-- Command RAW_LINE (PGP.rawLine): uncompressed raster line payload. -/
def rawLine (data : List Nat) : List Nat := frame 0x01 data

/-- Inner loop of PGP.rleEncode, fueled to make the recursion structural;
the fuel is the remaining input length, which bounds the iteration count
of the source while loop.  Each step takes the maximal run of the head
value, capped at 255, and emits one (count, value) pair. -/
def rleLoop : Nat → List Nat → List (Nat × Nat)
  | _, [] => []
  | 0, _ :: _ => []
  | fuel + 1, v :: rest =>
      let count := Nat.min (1 + (rest.takeWhile (fun b => b == v)).length) 255
      (count, v) :: rleLoop fuel (rest.drop (count - 1))

/-- Run sequence computed by PGP.rleEncode on an input line. -/
def rleRuns (l : List Nat) : List (Nat × Nat) := rleLoop l.length l

/-- Flattening of the run pairs into the byte form rle.push(count, val). -/
def rlePairsBytes (rs : List (Nat × Nat)) : List Nat :=
  rs.flatMap (fun cv => [cv.1, cv.2])

/-- Compressor PGP.rleEncode: null unless the input is exactly 72 bytes,
otherwise the flattened (count, value) pairs. -/
def rleEncode (l : List Nat) : Option (List Nat) :=
  if l.length = 72 then some (rlePairsBytes (rleRuns l)) else none

/-- Command chooser PGP.rawLineRle: the RLE frame when the compressed
form exists and is strictly shorter than 64 bytes, else the raw frame. -/
def rawLineRle (data : List Nat) : List Nat :=
  match rleEncode data with
  | some rle => if rle.length < 64 then frame 0x03 rle else rawLine data
  | none => rawLine data

/-- Command FILL_LINE (PGP.fillLine): pattern byte and little-endian count. -/
def fillLine (pattern count : Nat) : List Nat :=
  frame 0x04 [pattern &&& 0xFF, count &&& 0xFF, (count >>> 8) &&& 0xFF]

/-- UTF-8 encoding of one code point, as produced by TextEncoder. -/
def utf8Char (c : Nat) : List Nat :=
  if c < 0x80 then [c]
  else if c < 0x800 then [0xC0 ||| (c >>> 6), 0x80 ||| (c &&& 0x3F)]
  else if c < 0x10000 then
    [0xE0 ||| (c >>> 12), 0x80 ||| ((c >>> 6) &&& 0x3F), 0x80 ||| (c &&& 0x3F)]
  else
    [0xF0 ||| (c >>> 18), 0x80 ||| ((c >>> 12) &&& 0x3F),
     0x80 ||| ((c >>> 6) &&& 0x3F), 0x80 ||| (c &&& 0x3F)]

/-- UTF-8 encoding of a string given as a list of code points. -/
def utf8Encode (s : List Nat) : List Nat := s.flatMap utf8Char

/-- Command TEXT (PGP.text): little-endian x and y, font byte, encoded
length byte, then the UTF-8 bytes. -/
def text (x y font : Nat) (s : List Nat) : List Nat :=
  frame 0x05
    ([x &&& 0xFF, (x >>> 8) &&& 0xFF, y &&& 0xFF, (y >>> 8) &&& 0xFF,
      byte font, byte (utf8Encode s).length] ++ utf8Encode s)

/-- Command RECT (PGP.rect): four little-endian coordinates and the fill
flag byte. -/
def rect (x y w h fill : Nat) : List Nat :=
  frame 0x06
    [x &&& 0xFF, (x >>> 8) &&& 0xFF, y &&& 0xFF, (y >>> 8) &&& 0xFF,
     w &&& 0xFF, (w >>> 8) &&& 0xFF, h &&& 0xFF, (h >>> 8) &&& 0xFF, byte fill]

/-- Command FEED (PGP.feed): line count in little-endian order. -/
def feed (lines : Nat) : List Nat :=
  frame 0x20 [lines &&& 0xFF, (lines >>> 8) &&& 0xFF]

/-- Command STOP (PGP.stop): empty payload. -/
def stop : List Nat := frame 0x23 []

/-- Command SET_MODE (PGP.setMode): one mode byte. -/
def setMode (mode : Nat) : List Nat := frame 0x25 [byte mode]

/-- Command POLL_INPUT (PGP.pollInput): empty payload. -/
def pollInput : List Nat := frame 0x30 []

/-- Command WAIT_BUTTON (PGP.waitButton): empty payload. -/
def waitButton : List Nat := frame 0x31 []

/-- Command SYNC (PGP.sync): 32-bit sequence number little-endian. -/
def syncFrame (seq : Nat) : List Nat :=
  frame 0x41 [seq &&& 0xFF, (seq >>> 8) &&& 0xFF, (seq >>> 16) &&& 0xFF, (seq >>> 24) &&& 0xFF]

/-- Command PROGRAM_START (PGP.programStart): empty payload. -/
def programStart : List Nat := frame 0x50 []

/-- Command PROGRAM_END (PGP.programEnd): empty payload. -/
def programEnd : List Nat := frame 0x51 []

/-- Command SPRITE_DEF (PGP.spriteDef): id, width, height, bitmap. -/
def spriteDef (id w h : Nat) (data : List Nat) : List Nat :=
  frame 0x0B ([byte id, byte w, byte h] ++ data)

/-- Command SPRITE_DRAW (PGP.spriteDraw): id then little-endian x and y. -/
def spriteDraw (id x y : Nat) : List Nat :=
  frame 0x0C [byte id, x &&& 0xFF, (x >>> 8) &&& 0xFF, y &&& 0xFF, (y >>> 8) &&& 0xFF]

/-- Command LABEL (PGP.label): label id, high byte first. -/
def label (id : Nat) : List Nat :=
  frame 0x60 [(id >>> 8) &&& 0xFF, id &&& 0xFF]

/-- Command JUMP (PGP.jump): target label id, high byte first. -/
def jump (labelId : Nat) : List Nat :=
  frame 0x61 [(labelId >>> 8) &&& 0xFF, labelId &&& 0xFF]

/-- Command JUMP_IF_BTN (PGP.jumpIfBtn): button mask byte, defaulted to
0x3F when the argument is falsy (zero), then label id high byte first. -/
def jumpIfBtn (buttonMask labelId : Nat) : List Nat :=
  frame 0x62
    [byte (if buttonMask = 0 then 0x3F else buttonMask),
     (labelId >>> 8) &&& 0xFF, labelId &&& 0xFF]

/-- Command RANDOM_JUMP (PGP.randomJump): count byte then each label id
high byte first. -/
def randomJump (labelIds : List Nat) : List Nat :=
  frame 0x64
    (byte labelIds.length ::
      labelIds.flatMap (fun i => [(i >>> 8) &&& 0xFF, i &&& 0xFF]))

/-- Command SET_VAR (PGP.setVar): variable id byte then value high byte
first. -/
def setVar (varId value : Nat) : List Nat :=
  frame 0x65 [byte varId, (value >>> 8) &&& 0xFF, value &&& 0xFF]

/-- Command JUMP_IF_VAR (PGP.jumpIfVar): variable id, operator, value
high byte first, label id high byte first. -/
def jumpIfVar (varId op value labelId : Nat) : List Nat :=
  frame 0x66
    [byte varId, byte op, (value >>> 8) &&& 0xFF, value &&& 0xFF,
     (labelId >>> 8) &&& 0xFF, labelId &&& 0xFF]

/-- Command JUMP_IF_FADER (PGP.jumpIfFader): operator byte, threshold low
byte first, label id high byte first, exactly as the source stores them. -/
def jumpIfFader (op threshold labelId : Nat) : List Nat :=
  frame 0x67
    [byte op, threshold &&& 0xFF, (threshold >>> 8) &&& 0xFF,
     (labelId >>> 8) &&& 0xFF, labelId &&& 0xFF]

/-- Command WAIT_FADER (PGP.waitFader): operator byte then threshold low
byte first, exactly as the source stores them. -/
def waitFader (op threshold : Nat) : List Nat :=
  frame 0x68 [byte op, threshold &&& 0xFF, (threshold >>> 8) &&& 0xFF]

/-- Command SET_FEED_MODE (PGP.setFeedMode): one mode byte. -/
def setFeedMode (mode : Nat) : List Nat := frame 0x69 [byte mode]

end PGP

/-- Rounding of a nonnegative rational num/den as JavaScript Math.round
does for nonnegative arguments: floor of the value plus one half. -/
def jsRound (num den : Nat) : Nat := (2 * num + den) / (2 * den)

/-- Pixel heights of the three base fonts (BASE_FONT_PX in sdk.js). -/
def BASE_FONT_PX : List Nat := [7, 16, 8]

/-- Result record of sizeToFontScale. -/
structure FontScale where
  baseFont : Nat
  scale : Nat
deriving DecidableEq

/-- Resolver sizeToFontScale: converts a size in millimeters (8 dots per
millimeter) to a base font and a scale clamped to the range 1 to 15. -/
def sizeToFontScale (sizeMm : Nat) (useJapanese : Bool := false) : FontScale :=
  let sizePx := sizeMm * 8
  let base := if useJapanese then 2 else if 12 ≤ sizePx then 1 else 0
  let scale := Nat.max 1 (Nat.min 15 (jsRound sizePx (BASE_FONT_PX.getD base 0)))
  ⟨base, scale⟩

/-- Encoder encodeFontByte: extended layout (scale shifted left by two,
or-ed with the low two bits of the base font) for the Misaki font or for
scales above 2, legacy two-bit layout otherwise. -/
def encodeFontByte (baseFont scale : Nat) : Nat :=
  if 2 ≤ baseFont ∨ 2 < scale then (scale <<< 2) ||| (baseFont &&& 0x03)
  else if baseFont = 0 then scale - 1 else 2 + scale - 1

/-- Character classifier of the hasCJK regular expression: Hiragana,
Katakana, CJK ideographs, CJK extension A, halfwidth Katakana. -/
def isCJKChar (c : Nat) : Bool :=
  (0x3040 ≤ c && c ≤ 0x309F) || (0x30A0 ≤ c && c ≤ 0x30FF) ||
  (0x4E00 ≤ c && c ≤ 0x9FFF) || (0x3400 ≤ c && c ≤ 0x4DBF) ||
  (0xFF65 ≤ c && c ≤ 0xFF9F)

/-- Detector hasCJK on a string given as a list of code points. -/
def hasCJK (s : List Nat) : Bool := s.any isCJKChar

/-- Drawing operation LineContext.pixel on the 72-byte line buffer: a
silent no-op when x is negative or at least WIDTH, otherwise sets or
clears one bit, most significant bit first within each byte.  The store
is reduced modulo 256 as Uint8Array storage does. -/
def pixel (buf : List Nat) (x : Int) (isOn : Bool) : List Nat :=
  if x < 0 ∨ (WIDTH : Int) ≤ x then buf
  else
    let xi := x.toNat
    let mask := 1 <<< (7 - xi % 8)
    if isOn then buf.set (xi / 8) ((buf.getD (xi / 8) 0 ||| mask) % 256)
    else buf.set (xi / 8) ((buf.getD (xi / 8) 0 &&& (255 ^^^ mask)) % 256)

/-- Loop body of LineContext.range: set n consecutive bits starting at
pixel x. -/
def rangeLoop : List Nat → Nat → Nat → List Nat
  | buf, _, 0 => buf
  | buf, x, n + 1 =>
      rangeLoop (buf.set (x / 8) ((buf.getD (x / 8) 0 ||| (1 <<< (7 - x % 8))) % 256)) (x + 1) n

/-- Drawing operation LineContext.range: clamps the lower bound to 0 and
the upper bound to WIDTH, then sets every bit in the half-open span. -/
def range (buf : List Nat) (x1 x2 : Int) : List Nat :=
  let a := (max 0 x1).toNat
  let b := (min (WIDTH : Int) x2).toNat
  rangeLoop buf a (b - a)

/-- Content blocks pushed by the Section builder methods in sdk.js. -/
inductive Block where
  | text (x : Nat) (s : List Nat) (baseFont scale : Nat) (sizeMm : Option Nat)
  | rect (x w h fill : Nat)
  | fill (pattern count : Nat)
  | feed (lines : Nat)
  | hline (thickness : Nat)
  | image (rows : List (List Nat))
  | waitButton
  | sprite (id x y : Nat)
  | label (id : Nat)
  | jump (labelId : Nat)
  | jumpIfBtn (buttonMask labelId : Nat)
  | randomJump (labelIds : List Nat)
  | setVar (varId value : Nat)
  | jumpIfVar (varId op value labelId : Nat)
  | jumpIfFader (op threshold labelId : Nat)
  | waitFader (op threshold : Nat)
  | setFeedMode (mode : Nat)
deriving DecidableEq

/-- Block built by Section.text: an explicit size in millimeters wins
over a legacy font index, and the default is base font 1 at scale 1. -/
def mkTextBlock (x : Nat) (s : List Nat) (size font : Option Nat) : Block :=
  match size with
  | some mm =>
      let fs := sizeToFontScale mm
      .text x s fs.baseFont fs.scale (some mm)
  | none =>
      match font with
      | some f => .text x s (if f < 2 then 0 else 1) (if f = 1 ∨ f = 3 then 2 else 1) none
      | none => .text x s 1 1 none

/-- Context record handed to dynamic-section callbacks (LineContext).
The raster buffer, the shared variable table, the per-line speed
override, the done flag and the requested section transition are the
fields the compiler reads or resets. -/
structure LineCtx where
  line : Nat
  maxLines : Nat
  vars : Nat → Int
  buf : List Nat
  done : Bool
  gotoId : Option String
  speed : Option Nat

/-- Section record of sdk.js: static block list or dynamic callbacks. -/
structure GSection where
  feedMode : String
  speed : Nat
  blocks : List Block
  onLine : Option (LineCtx → LineCtx)
  onEnter : Option (LineCtx → LineCtx)
  onExit : Option (LineCtx → LineCtx)
  endCondition : Option (LineCtx → Bool)
  maxLines : Nat

/-- Sprite record held in the Game sprite table. -/
structure Sprite where
  id : Nat
  w : Nat
  h : Nat
  data : List Nat

/-- Game record: the section table in insertion order, the flow list,
the sprite table and the shared variable table. -/
structure Game where
  sections : List (String × GSection)
  flow : List String
  sprites : List (Nat × Sprite)
  vars : Nat → Int

/-- Emitter Game._blockToPGP: one content block to zero or more frames.
A text block whose string contains CJK characters switches to the Misaki
base font and, when a size in millimeters was recorded, recomputes the
scale against the 8-pixel base. -/
def blockToPGP (b : Block) : List (List Nat) :=
  match b with
  | .text x s baseFont scale sizeMm =>
      if hasCJK s then
        let scale2 :=
          match sizeMm with
          | some mm => Nat.max 1 (Nat.min 15 (jsRound (mm * 8) 8))
          | none => scale
        [PGP.text x 0 (encodeFontByte 2 scale2) s]
      else
        [PGP.text x 0 (encodeFontByte baseFont scale) s]
  | .rect x w h fill => [PGP.rect x 0 w h fill]
  | .fill pattern count => [PGP.fillLine pattern count]
  | .feed lines => [PGP.feed lines]
  | .hline thickness => [PGP.fillLine 0xFF thickness]
  | .image rows => rows.map PGP.rawLineRle
  | .waitButton => [PGP.waitButton]
  | .sprite id x y => [PGP.spriteDraw id x y]
  | .label id => [PGP.label id]
  | .jump lid => [PGP.jump lid]
  | .jumpIfBtn m lid => [PGP.jumpIfBtn m lid]
  | .randomJump lids => [PGP.randomJump lids]
  | .setVar v val => [PGP.setVar v val]
  | .jumpIfVar v op val lid => [PGP.jumpIfVar v op val lid]
  | .jumpIfFader op t lid => [PGP.jumpIfFader op t lid]
  | .waitFader op t => [PGP.waitFader op t]
  | .setFeedMode m => [PGP.setFeedMode m]

/-- Loop of Game._runDynamic: on each iteration the line index is set,
the buffer and the per-line speed override are reset, the callback runs,
the buffer is recorded, and the loop stops on the done flag or on the
end condition.  The fuel is the number of remaining iterations, so the
loop runs at most maxLines times. -/
def runDynLoop (onLine : LineCtx → LineCtx) (endCond : Option (LineCtx → Bool)) :
    Nat → Nat → LineCtx → List (List Nat) × LineCtx
  | 0, _, c => ([], c)
  | fuel + 1, i, c =>
      let c1 := onLine { c with line := i, buf := List.replicate BPL 0, speed := none }
      if c1.done then ([c1.buf], c1)
      else
        match endCond with
        | some p =>
            if p c1 then ([c1.buf], c1)
            else
              let r := runDynLoop onLine endCond fuel (i + 1) c1
              (c1.buf :: r.1, r.2)
        | none =>
            let r := runDynLoop onLine endCond fuel (i + 1) c1
            (c1.buf :: r.1, r.2)

/-- Generator Game._runDynamic: builds the initial context, runs the
optional enter hook, iterates the per-line callback, runs the optional
exit hook, and returns the scanlines together with the final variable
table. -/
def runDynamic (vars : Nat → Int) (s : GSection) (onLine : LineCtx → LineCtx) :
    List (List Nat) × (Nat → Int) :=
  let c0 : LineCtx :=
    { line := 0, maxLines := s.maxLines, vars := vars,
      buf := List.replicate BPL 0, done := false, gotoId := none, speed := none }
  let c1 := match s.onEnter with | some h => h c0 | none => c0
  let r := runDynLoop onLine s.endCondition s.maxLines 0 c1
  let c2 := match s.onExit with | some h => h r.2 | none => r.2
  (r.1, c2.vars)

/-- Feed-mode number mapping of Game._compileSectionFrames: auto 0,
elastic 1, precise 2, anything else 0. -/
def modeNum (fm : String) : Nat :=
  if fm = "auto" then 0 else if fm = "elastic" then 1 else if fm = "precise" then 2 else 0

/-- Emitter Game._compileSectionFrames: a SET_MODE frame only for a
nonzero mode, a SET_SPEED frame for the auto mode or mode zero, then
either the RLE-compressed dynamic scanlines or the static blocks.  The
variable table is threaded through dynamic generation. -/
def sectionFrames (vars : Nat → Int) (s : GSection) : List (List Nat) × (Nat → Int) :=
  let m := modeNum s.feedMode
  let head :=
    (if m ≠ 0 then [PGP.setMode m] else []) ++
    (if s.feedMode = "auto" ∨ m = 0 then [PGP.setSpeed s.speed] else [])
  match s.onLine with
  | some f =>
      let r := runDynamic vars s f
      (head ++ r.1.map PGP.rawLineRle, r.2)
  | none => (head ++ s.blocks.flatMap blockToPGP, vars)

/-- Sequencer for section emission: frames of each section in order,
threading the shared variable table from one section to the next. -/
def emitSections (vars : Nat → Int) : List GSection → List (List Nat) × (Nat → Int)
  | [] => ([], vars)
  | s :: rest =>
      let r1 := sectionFrames vars s
      let r2 := emitSections r1.2 rest
      (r1.1 ++ r2.1, r2.2)

/-- Lookup in the section table by id (Map.get on a table with unique
keys). -/
def lookupSec (g : Game) (id : String) : Option GSection :=
  (g.sections.find? (fun p => p.1 = id)).map Prod.snd

/-- Sections of the flow list in order, skipping unknown ids, exactly as
the flow loops of Game.compile do. -/
def flowSecs (g : Game) : List GSection := g.flow.filterMap (lookupSec g)

/-- Ids added to the compiled set by the flow loop of Game.compile: the
flow ids that resolve in the section table. -/
def compiledIds (g : Game) : List String :=
  g.flow.filter (fun id => (lookupSec g id).isSome)

/-- Remaining sections emitted by the second loop of Game.compile for
branching programs: table entries whose id the flow loop did not
compile. -/
def remainingSecs (g : Game) : List (String × GSection) :=
  g.sections.filter (fun p => !((compiledIds g).contains p.1))

/-- Branching detector Game._hasBranchingCommands: the nine control-flow
block kinds. -/
def isBranchingBlock : Block → Bool
  | .label _ => true
  | .jump _ => true
  | .jumpIfBtn _ _ => true
  | .randomJump _ => true
  | .setVar _ _ => true
  | .jumpIfVar _ _ _ _ => true
  | .jumpIfFader _ _ _ => true
  | .waitFader _ _ => true
  | .setFeedMode _ => true
  | _ => false

/-- Detector Game._hasBranchingCommands over the whole section table. -/
def hasBranchingCommands (g : Game) : Bool :=
  g.sections.any (fun p => p.2.blocks.any isBranchingBlock)

/-- Frame list produced by Game.compile before concatenation: optional
program-start marker, sprite definitions, flow sections (and for
branching programs every remaining section), the feed and stop trailer,
and the optional program-end marker. -/
def compileFrames (g : Game) : List (List Nat) :=
  let hasB := hasBranchingCommands g
  let spriteFs := g.sprites.map (fun p => PGP.spriteDef p.2.id p.2.w p.2.h p.2.data)
  let body :=
    if hasB then emitSections g.vars (flowSecs g ++ (remainingSecs g).map Prod.snd)
    else emitSections g.vars (flowSecs g)
  (if hasB then [PGP.programStart] else []) ++ spriteFs ++ body.1 ++
    [PGP.feed 16, PGP.stop] ++ (if hasB then [PGP.programEnd] else [])

/-- Label ids defined by label blocks anywhere in the program, collected
by step 1 of Game._validateLabels. -/
def definedLabels (g : Game) : List Nat :=
  g.sections.flatMap
    (fun p => p.2.blocks.filterMap
      (fun b => match b with | .label i => some i | _ => none))

/-- Violations recorded by step 2 of Game._validateLabels for a single
block: jump and jump-if-button references, jump-if-variable references
and random-jump reference lists are checked against the defined set;
every other block kind, including jump-if-fader, is not checked. -/
def blockViolations (defined : List Nat) (sid : String) (b : Block) :
    List (String × String × Nat) :=
  match b with
  | .jump lid => if defined.contains lid then [] else [(sid, "jump", lid)]
  | .jumpIfBtn _ lid => if defined.contains lid then [] else [(sid, "jump", lid)]
  | .jumpIfVar _ _ _ lid => if defined.contains lid then [] else [(sid, "jumpIfVar", lid)]
  | .randomJump lids =>
      (lids.filter (fun l => !(defined.contains l))).map (fun l => (sid, "randomJump", l))
  | _ => []

/-- Validator Game._validateLabels: every violation accumulated over all
sections and blocks, in source order. -/
def validateLabels (g : Game) : List (String × String × Nat) :=
  g.sections.flatMap (fun p => p.2.blocks.flatMap (blockViolations (definedLabels g) p.1))

/-- Label ids a block references among the kinds the validator checks. -/
def checkedRefs : Block → List Nat
  | .jump lid => [lid]
  | .jumpIfBtn _ lid => [lid]
  | .jumpIfVar _ _ _ lid => [lid]
  | .randomJump lids => lids
  | _ => []

/-- Compiler entry point Game.compile: for a branching program the label
validator runs first and a nonempty violation list aborts compilation
with the aggregate error; otherwise the frame list is produced and
concatenated. -/
def compile (g : Game) : Except (List (String × String × Nat)) (List Nat) :=
  if hasBranchingCommands g ∧ validateLabels g ≠ [] then .error (validateLabels g)
  else .ok ((compileFrames g).flatMap id)

/-- Expansion of a run-length pair list: count copies of each value, in
order.  This is the decoding side of the round-trip property. -/
def rleExpand (rs : List (Nat × Nat)) : List Nat :=
  rs.flatMap (fun cv => List.replicate cv.1 cv.2)

/-- Command byte of a frame: element 1, after the sync byte. -/
def cmdByte (f : List Nat) : Nat := f.getD 1 0

/-- Static section fixture: the text OK and a ten-line feed. -/
def secText : GSection :=
  { feedMode := "auto", speed := 10000, blocks := [.text 0 [79, 75] 1 1 none, .feed 10],
    onLine := none, onEnter := none, onExit := none, endCondition := none, maxLines := 2000 }

/-- Section fixture holding a single label block. -/
def secLabel : GSection :=
  { feedMode := "auto", speed := 10000, blocks := [.label 1],
    onLine := none, onEnter := none, onExit := none, endCondition := none, maxLines := 2000 }

/-- Non-branching game fixture: one static flow section. -/
def gNB : Game :=
  { sections := [("a", secText)], flow := ["a"], sprites := [], vars := fun _ => 0 }

/-- Branching game fixture: the static section in flow plus a section
with a label block that is not in the flow. -/
def gBranch : Game :=
  { sections := [("a", secText), ("b", secLabel)], flow := ["a"], sprites := [],
    vars := fun _ => 0 }

/-- Section fixture with a jump-if-fader block referencing label 7,
which no label block defines. -/
def secFader : GSection :=
  { feedMode := "auto", speed := 10000, blocks := [.jumpIfFader 0 0 7],
    onLine := none, onEnter := none, onExit := none, endCondition := none, maxLines := 2000 }

/-- Game fixture whose only section jumps on the fader to the undefined
label 7. -/
def gFader : Game :=
  { sections := [("main", secFader)], flow := ["main"], sprites := [], vars := fun _ => 0 }

/-- Section fixture with a jump block referencing the undefined label 7. -/
def secJump : GSection :=
  { feedMode := "auto", speed := 10000, blocks := [.jump 7],
    onLine := none, onEnter := none, onExit := none, endCondition := none, maxLines := 2000 }

/-- Game fixture whose only section jumps to the undefined label 7. -/
def gJump : Game :=
  { sections := [("main", secJump)], flow := ["main"], sprites := [], vars := fun _ => 0 }

/-- Dynamic-section callback fixture that overrides the line speed to 42
and stops after the first line. -/
def dynCallback : LineCtx → LineCtx :=
  fun c => { c with speed := some 42, done := true }

/-- Dynamic-section callback fixture that stops after the first line
without touching the speed. -/
def dynCallbackPlain : LineCtx → LineCtx :=
  fun c => { c with done := true }

/-- Dynamic section fixture using the speed-overriding callback. -/
def secDyn : GSection :=
  { feedMode := "auto", speed := 10000, blocks := [], onLine := some dynCallback,
    onEnter := none, onExit := none, endCondition := none, maxLines := 100 }

/-- Dynamic section fixture using the plain callback. -/
def secDynPlain : GSection :=
  { feedMode := "auto", speed := 10000, blocks := [], onLine := some dynCallbackPlain,
    onEnter := none, onExit := none, endCondition := none, maxLines := 100 }

/-- Game fixture with the speed-overriding dynamic section. -/
def gDyn : Game :=
  { sections := [("d", secDyn)], flow := ["d"], sprites := [], vars := fun _ => 0 }

/-- Game fixture with the plain dynamic section. -/
def gDynPlain : Game :=
  { sections := [("d", secDynPlain)], flow := ["d"], sprites := [], vars := fun _ => 0 }

/-- Masking a Nat with 255 is reduction modulo 256. -/
theorem land255_eq_mod (v : Nat) : v &&& 255 = v % 256 := by
  have h : (255 : Nat) = 2 ^ 8 - 1 := rfl
  rw [h, Nat.and_pow_two_sub_one_eq_mod]

/-- Shifting a Nat right by eight is division by 256. -/
theorem shiftRight8_eq_div (v : Nat) : v >>> 8 = v / 256 := by
  rw [Nat.shiftRight_eq_div_pow]

/-- C3: for every command byte c and payload p of length at most 65535,
frame produces sync 0xE0, the command byte, the length low byte, the
length high byte, the payload, and a final checksum byte equal to the
crc8 recomputed over bytes 1 through 3 plus length of the produced frame
(command, length bytes and payload), the self-consistency round trip. -/
theorem C3_frame_layout_checksum (cmd : Nat) (p : List Nat)
    (hc : cmd < 256) (hl : p.length ≤ 65535) :
    PGP.frame cmd p =
      [0xE0, cmd, p.length % 256, p.length / 256] ++ p ++
        [PGP.crc8 (((PGP.frame cmd p).take (4 + p.length)).drop 1)] := by
  have hlen4 : (0xE0 :: PGP.frameBody cmd p).length = 4 + p.length := by
    simp [PGP.frameBody]; omega
  have h1 : ((PGP.frame cmd p).take (4 + p.length)).drop 1 = PGP.frameBody cmd p := by
    simp only [PGP.frame]
    rw [List.take_left' hlen4]
    rfl
  rw [h1]
  have hdiv : p.length / 256 < 256 := by omega
  simp only [PGP.frame, PGP.frameBody, byte, List.cons_append, List.nil_append,
    List.append_assoc]
  simp only [land255_eq_mod, shiftRight8_eq_div]
  rw [Nat.mod_eq_of_lt hc, Nat.mod_eq_of_lt hdiv]

/-- Witness for C3 at command 1 and the two-byte payload 2, 250. -/
theorem C3_witness :
    (1 : Nat) < 256 ∧ ([2, 250] : List Nat).length ≤ 65535 ∧
    PGP.frame 1 [2, 250] =
      [0xE0, 1, ([2, 250] : List Nat).length % 256, ([2, 250] : List Nat).length / 256] ++
        [2, 250] ++
        [PGP.crc8 (((PGP.frame 1 [2, 250]).take (4 + ([2, 250] : List Nat).length)).drop 1)] :=
  ⟨by decide, by decide, C3_frame_layout_checksum 1 [2, 250] (by decide) (by decide)⟩

/-- Length of a produced frame: header, payload and checksum. -/
theorem frame_length (cmd : Nat) (p : List Nat) :
    (PGP.frame cmd p).length = 5 + p.length := by
  simp [PGP.frame, PGP.frameBody]
  omega

/-- First four bytes of a produced frame: sync, command byte and the two
length bytes. -/
theorem frame_take4 (cmd : Nat) (p : List Nat) :
    (PGP.frame cmd p).take 4 =
      [0xE0, byte cmd, p.length &&& 0xFF, (p.length >>> 8) &&& 0xFF] := by
  simp only [PGP.frame, PGP.frameBody]
  rw [List.take_append_of_le_length (by simp)]
  rfl

/-- C9 counterexample: building a frame from a 65536-byte payload does
not fail and silently emits a frame whose 16-bit length field has
wrapped to zero, contradicting the claim that oversized payloads make
the call fail. -/
theorem C9_cex_oversized_payload_wraps :
    (PGP.frame 7 (List.replicate 65536 0)).take 4 = [0xE0, 7, 0, 0] ∧
    (PGP.frame 7 (List.replicate 65536 0)).length = 65541 := by
  constructor
  · rw [frame_take4, List.length_replicate]
    decide
  · rw [frame_length, List.length_replicate]

/-- C9 (corrected): PGP.frame performs no payload-length validation at
all; for every command and payload, also oversized ones, it returns a
frame of 5 plus payload-length bytes whose 16-bit length field holds the
payload length reduced modulo 65536 (low byte then high byte). -/
theorem C9_frame_no_length_check (cmd : Nat) (p : List Nat) :
    PGP.frame cmd p =
      0xE0 :: byte cmd :: (p.length % 256) :: (p.length / 256 % 256) :: p ++
        [PGP.crc8 (PGP.frameBody cmd p)] ∧
    (PGP.frame cmd p).length = 5 + p.length := by
  constructor
  · simp only [PGP.frame, PGP.frameBody, land255_eq_mod, shiftRight8_eq_div, List.cons_append]
  · simp [PGP.frame, PGP.frameBody]
    omega

/-- C1 counterexample: the wait-fader frame encodes its 16-bit threshold
low byte first, not big-endian as the claim states; at threshold 256 the
produced frame differs from the frame a big-endian threshold field would
give. -/
theorem C1_cex_waitFader_threshold :
    PGP.waitFader 0 256 ≠ PGP.frame 0x68 (byte 0 :: PGP.writeU16BE 256) := by decide

/-- C1 (corrected): label ids in label, jump, jump-if-button,
random-jump and jump-if-variable frames and variable values in
set-variable and jump-if-variable frames are encoded big-endian (high
byte first), and the 16-bit fields of general commands (speed, heat,
feed lines, coordinates, fill count) are little-endian, but the
thresholds of jump-if-fader and wait-fader frames are little-endian as
well, not big-endian. -/
theorem C1_endianness :
    (∀ id, PGP.label id = PGP.frame 0x60 [id / 256 % 256, id % 256]) ∧
    (∀ lid, PGP.jump lid = PGP.frame 0x61 [lid / 256 % 256, lid % 256]) ∧
    (∀ m lid, PGP.jumpIfBtn m lid =
      PGP.frame 0x62 [(if m = 0 then 0x3F else m) % 256, lid / 256 % 256, lid % 256]) ∧
    (∀ lids, PGP.randomJump lids =
      PGP.frame 0x64 (lids.length % 256 :: lids.flatMap (fun i => [i / 256 % 256, i % 256]))) ∧
    (∀ v val, PGP.setVar v val =
      PGP.frame 0x65 [v % 256, val / 256 % 256, val % 256]) ∧
    (∀ v op val lid, PGP.jumpIfVar v op val lid =
      PGP.frame 0x66 [v % 256, op % 256, val / 256 % 256, val % 256,
        lid / 256 % 256, lid % 256]) ∧
    (∀ op t lid, PGP.jumpIfFader op t lid =
      PGP.frame 0x67 [op % 256, t % 256, t / 256 % 256, lid / 256 % 256, lid % 256]) ∧
    (∀ op t, PGP.waitFader op t =
      PGP.frame 0x68 [op % 256, t % 256, t / 256 % 256]) ∧
    (∀ pps, PGP.setSpeed pps = PGP.frame 0x22 [pps % 256, pps / 256 % 256]) ∧
    (∀ us, PGP.setHeat us = PGP.frame 0x24 [us % 256, us / 256 % 256]) ∧
    (∀ lines, PGP.feed lines = PGP.frame 0x20 [lines % 256, lines / 256 % 256]) ∧
    (∀ pat c, PGP.fillLine pat c =
      PGP.frame 0x04 [pat % 256, c % 256, c / 256 % 256]) ∧
    (∀ x y w h f, PGP.rect x y w h f =
      PGP.frame 0x06 [x % 256, x / 256 % 256, y % 256, y / 256 % 256,
        w % 256, w / 256 % 256, h % 256, h / 256 % 256, f % 256]) ∧
    (∀ id x y, PGP.spriteDraw id x y =
      PGP.frame 0x0C [id % 256, x % 256, x / 256 % 256, y % 256, y / 256 % 256]) := by
  refine ⟨?_, ?_, ?_, ?_, ?_, ?_, ?_, ?_, ?_, ?_, ?_, ?_, ?_, ?_⟩ <;> intros <;>
    simp only [PGP.label, PGP.jump, PGP.jumpIfBtn, PGP.randomJump, PGP.setVar,
      PGP.jumpIfVar, PGP.jumpIfFader, PGP.waitFader, PGP.setSpeed, PGP.setHeat,
      PGP.feed, PGP.fillLine, PGP.rect, PGP.spriteDraw, byte,
      land255_eq_mod, shiftRight8_eq_div]

/-- Every prefix of the maximal equal run at the head of a list consists
of copies of the run value. -/
theorem take_of_le_takeWhile (v : Nat) :
    ∀ (l : List Nat) (j : Nat), j ≤ (l.takeWhile (fun b => b == v)).length →
      l.take j = List.replicate j v := by
  intro l
  induction l with
  | nil =>
      intro j hj
      simp at hj
      simp [hj]
  | cons a t ih =>
      intro j hj
      rw [List.takeWhile_cons] at hj
      by_cases hav : (a == v) = true
      · have hae : a = v := by simpa using hav
        rw [hav] at hj
        simp at hj
        match j with
        | 0 => simp
        | k + 1 =>
            have hk : k ≤ (t.takeWhile (fun b => b == v)).length := by omega
            rw [List.take_succ_cons, List.replicate_succ, ih k hk, hae]
      · simp [hav] at hj
        simp [hj]

/-- Expansion of a cons run list: replicate the head pair, then the rest. -/
theorem rleExpand_cons (c v : Nat) (rs : List (Nat × Nat)) :
    rleExpand ((c, v) :: rs) = List.replicate c v ++ rleExpand rs := rfl

/-- A replicate list with a positive count starts with its value. -/
theorem replicate_eq_cons (c v : Nat) (hc : 1 ≤ c) :
    List.replicate c v = v :: List.replicate (c - 1) v := by
  match c, hc with
  | n + 1, _ => simp [List.replicate_succ]

/-- Expanding the run list produced by the RLE loop reproduces the input
whenever the fuel covers the input length. -/
theorem rleLoop_expand :
    ∀ (fuel : Nat) (l : List Nat), l.length ≤ fuel →
      rleExpand (PGP.rleLoop fuel l) = l := by
  intro fuel
  induction fuel with
  | zero =>
      intro l hl
      match l with
      | [] => rfl
      | a :: t => simp at hl
  | succ fuel ih =>
      intro l hl
      match l with
      | [] => rfl
      | v :: rest =>
          have hstep : PGP.rleLoop (fuel + 1) (v :: rest) =
              (Nat.min (1 + (rest.takeWhile (fun b => b == v)).length) 255, v) ::
                PGP.rleLoop fuel
                  (rest.drop
                    (Nat.min (1 + (rest.takeWhile (fun b => b == v)).length) 255 - 1)) := rfl
          have hk : Nat.min (1 + (rest.takeWhile (fun b => b == v)).length) 255 - 1 ≤
              (rest.takeWhile (fun b => b == v)).length := by
            refine Nat.sub_le_iff_le_add.mpr ?_
            refine le_trans (Nat.min_le_left _ _) ?_
            omega
          have hc1 : 1 ≤ Nat.min (1 + (rest.takeWhile (fun b => b == v)).length) 255 := by
            have h255 : (1 : Nat) ≤ 255 := by omega
            exact Nat.le_min.mpr (by constructor <;> omega)
          have hdrop : (rest.drop
              (Nat.min (1 + (rest.takeWhile (fun b => b == v)).length) 255 - 1)).length ≤
              fuel := by
            rw [List.length_drop]
            have h1 : rest.length ≤ fuel := by simp at hl; omega
            exact le_trans (Nat.sub_le _ _) h1
          rw [hstep, rleExpand_cons, ih _ hdrop, replicate_eq_cons _ _ hc1,
            ← take_of_le_takeWhile v rest _ hk, List.cons_append, List.take_append_drop]

/-- Every count the RLE loop produces lies between 1 and 255. -/
theorem rleLoop_counts :
    ∀ (fuel : Nat) (l : List Nat), ∀ cv ∈ PGP.rleLoop fuel l,
      1 ≤ cv.1 ∧ cv.1 ≤ 255 := by
  intro fuel
  induction fuel with
  | zero =>
      intro l cv hcv
      match l with
      | [] => simp [PGP.rleLoop] at hcv
      | a :: t => simp [PGP.rleLoop] at hcv
  | succ fuel ih =>
      intro l cv hcv
      match l with
      | [] => simp [PGP.rleLoop] at hcv
      | v :: rest =>
          have hstep : PGP.rleLoop (fuel + 1) (v :: rest) =
              (Nat.min (1 + (rest.takeWhile (fun b => b == v)).length) 255, v) ::
                PGP.rleLoop fuel
                  (rest.drop
                    (Nat.min (1 + (rest.takeWhile (fun b => b == v)).length) 255 - 1)) := rfl
          rw [hstep] at hcv
          rcases List.mem_cons.mp hcv with heq | hmem
          · subst heq
            constructor
            · exact Nat.le_min.mpr (by constructor <;> omega)
            · exact Nat.min_le_right _ _
          · exact ih _ _ hmem

/-- The length of an expanded run list is the sum of its counts. -/
theorem rleExpand_length (rs : List (Nat × Nat)) :
    (rleExpand rs).length = (rs.map Prod.fst).sum := by
  induction rs with
  | nil => rfl
  | cons cv t ih => simp [rleExpand, List.flatMap_cons] at ih ⊢; omega

/-- C4: for every 72-byte raster line, expanding the run-length pairs
computed by rleEncode reproduces the line exactly, every count lies
between 1 and 255, the counts sum to exactly 72, and rleEncode returns
exactly the flattened pair bytes. -/
theorem C4_rle_roundtrip (l : List Nat) (h : l.length = 72) :
    rleExpand (PGP.rleRuns l) = l ∧
    (∀ cv ∈ PGP.rleRuns l, 1 ≤ cv.1 ∧ cv.1 ≤ 255) ∧
    ((PGP.rleRuns l).map Prod.fst).sum = 72 ∧
    PGP.rleEncode l = some (PGP.rlePairsBytes (PGP.rleRuns l)) := by
  have h1 : rleExpand (PGP.rleRuns l) = l := rleLoop_expand l.length l le_rfl
  refine ⟨h1, rleLoop_counts _ _, ?_, ?_⟩
  · rw [← rleExpand_length, h1, h]
  · simp [PGP.rleEncode, h]

/-- Witness for C4 on the all-fives 72-byte line. -/
theorem C4_witness :
    (List.replicate 72 5).length = 72 ∧
    rleExpand (PGP.rleRuns (List.replicate 72 5)) = List.replicate 72 5 :=
  ⟨by decide, (C4_rle_roundtrip (List.replicate 72 5) (by decide)).1⟩

/-- C5: for every 72-byte line the emitter chooses the compressed
RAW_LINE_RLE frame exactly when the RLE byte form is strictly shorter
than 64 bytes and otherwise the uncompressed RAW_LINE frame with the 72
raw bytes; for every input of any other length rleEncode returns none
and the raw frame is emitted. -/
theorem C5_rawLineRle_choice (l : List Nat) :
    (l.length = 72 →
      PGP.rawLineRle l =
        if (PGP.rlePairsBytes (PGP.rleRuns l)).length < 64
        then PGP.frame 0x03 (PGP.rlePairsBytes (PGP.rleRuns l))
        else PGP.frame 0x01 l) ∧
    (l.length ≠ 72 →
      PGP.rleEncode l = none ∧ PGP.rawLineRle l = PGP.frame 0x01 l) := by
  constructor
  · intro h
    simp [PGP.rawLineRle, PGP.rleEncode, PGP.rawLine, h]
  · intro h
    have he : PGP.rleEncode l = none := by simp [PGP.rleEncode, h]
    exact ⟨he, by simp [PGP.rawLineRle, he, PGP.rawLine]⟩

/-- Witness for C5 on the all-zero 72-byte line and on a 3-byte input. -/
theorem C5_witness :
    ((List.replicate 72 0).length = 72 ∧
      PGP.rawLineRle (List.replicate 72 0) =
        if (PGP.rlePairsBytes (PGP.rleRuns (List.replicate 72 0))).length < 64
        then PGP.frame 0x03 (PGP.rlePairsBytes (PGP.rleRuns (List.replicate 72 0)))
        else PGP.frame 0x01 (List.replicate 72 0)) ∧
    (([1, 2, 3] : List Nat).length ≠ 72 ∧ PGP.rleEncode [1, 2, 3] = none ∧
      PGP.rawLineRle [1, 2, 3] = PGP.frame 0x01 [1, 2, 3]) :=
  ⟨⟨by decide, (C5_rawLineRle_choice (List.replicate 72 0)).1 (by decide)⟩,
   ⟨by decide, ((C5_rawLineRle_choice [1, 2, 3]).2 (by decide)).1,
    ((C5_rawLineRle_choice [1, 2, 3]).2 (by decide)).2⟩⟩

/-- The range loop preserves the buffer length. -/
theorem rangeLoop_length (n : Nat) :
    ∀ (buf : List Nat) (x : Nat), (rangeLoop buf x n).length = buf.length := by
  induction n with
  | zero => intro buf x; rfl
  | succ n ih =>
      intro buf x
      rw [show rangeLoop buf x (n + 1) =
          rangeLoop (buf.set (x / 8) ((buf.getD (x / 8) 0 ||| (1 <<< (7 - x % 8))) % 256))
            (x + 1) n from rfl]
      rw [ih]
      exact List.length_set buf _ _

/-- C7: a text block requested at 16 physical dots (2 millimeters at 8
dots per millimeter) with no CJK content resolves to base font 1 at
scale 1 and is emitted with the legacy font byte 2; with CJK content the
emitter switches to the Misaki base font 2, recomputes the scale against
the 8-dot base (giving 2), and encodes it in the extended layout, scale
shifted left twice or-ed with the base font. -/
theorem C7_font_selection (x : Nat) (s : List Nat) :
    (hasCJK s = false →
      sizeToFontScale 2 = ⟨1, 1⟩ ∧
      encodeFontByte 1 1 = 2 ∧
      blockToPGP (mkTextBlock x s (some 2) none) = [PGP.text x 0 2 s]) ∧
    (hasCJK s = true →
      Nat.max 1 (Nat.min 15 (jsRound (2 * 8) 8)) = 2 ∧
      encodeFontByte 2 2 = (2 <<< 2) ||| 2 ∧
      blockToPGP (mkTextBlock x s (some 2) none) = [PGP.text x 0 (encodeFontByte 2 2) s]) := by
  constructor
  · intro h
    refine ⟨by decide, by decide, ?_⟩
    simp [mkTextBlock, blockToPGP, h, sizeToFontScale, jsRound, BASE_FONT_PX, encodeFontByte]
  · intro h
    refine ⟨by decide, by decide, ?_⟩
    simp [mkTextBlock, blockToPGP, h, sizeToFontScale, jsRound, BASE_FONT_PX, encodeFontByte]

/-- Witness for C7 on the ASCII string Hi and on a string holding one
CJK ideograph. -/
theorem C7_witness :
    (hasCJK [72, 105] = false ∧
      blockToPGP (mkTextBlock 0 [72, 105] (some 2) none) = [PGP.text 0 0 2 [72, 105]]) ∧
    (hasCJK [0x65E5] = true ∧
      blockToPGP (mkTextBlock 0 [0x65E5] (some 2) none) =
        [PGP.text 0 0 (encodeFontByte 2 2) [0x65E5]]) :=
  ⟨⟨by decide, ((C7_font_selection 0 [72, 105]).1 (by decide)).2.2⟩,
   ⟨by decide, ((C7_font_selection 0 [0x65E5]).2 (by decide)).2.2⟩⟩

/-- C10: a pixel call outside the 576-pixel width leaves the buffer
unchanged, pixel and range preserve the 72-byte buffer length for every
coordinate, and range clamps its bounds to the interval from 0 to 576
before drawing, so no drawing operation writes outside the line buffer. -/
theorem C10_draw_bounds (buf : List Nat) (x x1 x2 : Int) (isOn : Bool)
    (h : buf.length = 72) :
    ((x < 0 ∨ (576 : Int) ≤ x) → pixel buf x isOn = buf) ∧
    (pixel buf x isOn).length = 72 ∧
    (range buf x1 x2).length = 72 ∧
    range buf x1 x2 = range buf (max 0 x1) (min 576 x2) := by
  have hw : ((WIDTH : Nat) : Int) = 576 := by norm_num [WIDTH]
  refine ⟨?_, ?_, ?_, ?_⟩
  · intro hx
    simp only [pixel, hw]
    rw [if_pos hx]
  · simp only [pixel, hw]
    by_cases hx : x < 0 ∨ (576 : Int) ≤ x
    · rw [if_pos hx, h]
    · rw [if_neg hx]
      cases isOn <;> simp [h]
  · simp only [range]
    rw [rangeLoop_length, h]
  · simp only [range, hw]
    rw [← max_assoc, max_self, ← min_assoc, min_self]

/-- Witness for C10 on the all-zero buffer with an out-of-range pixel
coordinate and an overshooting range. -/
theorem C10_witness :
    (List.replicate 72 (0 : Nat)).length = 72 ∧
    ((-5 : Int) < 0 ∨ (576 : Int) ≤ (-5 : Int)) ∧
    pixel (List.replicate 72 0) (-5) true = List.replicate 72 0 ∧
    (range (List.replicate 72 0) (-3) 600).length = 72 :=
  ⟨by decide, by decide,
   (C10_draw_bounds (List.replicate 72 0) (-5) (-3) 600 true (by decide)).1 (by decide),
   (C10_draw_bounds (List.replicate 72 0) (-5) (-3) 600 true (by decide)).2.2.1⟩

/-- A single block contributes no violation exactly when every label id
it references among the validator-checked kinds is defined. -/
theorem blockViolations_eq_nil (defined : List Nat) (sid : String) (b : Block) :
    blockViolations defined sid b = [] ↔ ∀ lid ∈ checkedRefs b, lid ∈ defined := by
  cases b
  case jump lid =>
    simp only [blockViolations, checkedRefs]
    split_ifs with hc <;> simp_all [List.elem_iff]
  case jumpIfBtn m lid =>
    simp only [blockViolations, checkedRefs]
    split_ifs with hc <;> simp_all [List.elem_iff]
  case jumpIfVar a o vv lid =>
    simp only [blockViolations, checkedRefs]
    split_ifs with hc <;> simp_all [List.elem_iff]
  case randomJump lids =>
    simp only [blockViolations, checkedRefs]
    rw [List.map_eq_nil_iff, List.filter_eq_nil_iff]
    simp [List.elem_iff]
  all_goals simp [blockViolations, checkedRefs]

/-- A checked reference to an undefined label always produces a
violation entry for its section and label id. -/
theorem blockViolations_mem (defined : List Nat) (sid : String) (b : Block) (lid : Nat)
    (h1 : lid ∈ checkedRefs b) (h2 : lid ∉ defined) :
    ∃ kind, (sid, kind, lid) ∈ blockViolations defined sid b := by
  cases b
  case jump l =>
    simp only [checkedRefs, List.mem_singleton] at h1
    subst h1
    refine ⟨"jump", ?_⟩
    simp [blockViolations, List.elem_iff, h2]
  case jumpIfBtn m l =>
    simp only [checkedRefs, List.mem_singleton] at h1
    subst h1
    refine ⟨"jump", ?_⟩
    simp [blockViolations, List.elem_iff, h2]
  case jumpIfVar a o vv l =>
    simp only [checkedRefs, List.mem_singleton] at h1
    subst h1
    refine ⟨"jumpIfVar", ?_⟩
    simp [blockViolations, List.elem_iff, h2]
  case randomJump lids =>
    simp only [checkedRefs] at h1
    refine ⟨"randomJump", ?_⟩
    simp only [blockViolations, List.mem_map]
    refine ⟨lid, ?_, rfl⟩
    rw [List.mem_filter]
    simp [List.elem_iff, h1, h2]
  all_goals simp [checkedRefs] at h1

/-- C2 (corrected): the validator accumulates one violation entry,
naming the referencing section and label id, for every undefined label
referenced by a jump, jump-if-button, jump-if-variable or random-jump
block, across all blocks of all sections; it reports no violation
exactly when every label referenced by those four kinds is defined; a
branching program with a nonempty violation list fails compilation with
the single aggregate error carrying the whole list, and an empty list
lets compilation produce the byte stream.  References held by
jump-if-fader blocks are not checked by the validator. -/
theorem C2_label_validation (g : Game) :
    (validateLabels g = [] ↔
      ∀ p ∈ g.sections, ∀ b ∈ p.2.blocks, ∀ lid ∈ checkedRefs b, lid ∈ definedLabels g) ∧
    (∀ p ∈ g.sections, ∀ b ∈ p.2.blocks, ∀ lid ∈ checkedRefs b,
      lid ∉ definedLabels g → ∃ kind, (p.1, kind, lid) ∈ validateLabels g) ∧
    (hasBranchingCommands g = true → validateLabels g ≠ [] →
      compile g = .error (validateLabels g)) ∧
    (validateLabels g = [] → compile g = .ok ((compileFrames g).flatMap id)) := by
  refine ⟨?_, ?_, ?_, ?_⟩
  · rw [validateLabels, List.flatMap_eq_nil_iff]
    constructor
    · intro h p hp b hb
      have h2 := h p hp
      rw [List.flatMap_eq_nil_iff] at h2
      exact (blockViolations_eq_nil _ _ _).mp (h2 b hb)
    · intro h p hp
      rw [List.flatMap_eq_nil_iff]
      intro b hb
      exact (blockViolations_eq_nil _ _ _).mpr (h p hp b hb)
  · intro p hp b hb lid hl hndef
    obtain ⟨kind, hk⟩ := blockViolations_mem (definedLabels g) p.1 b lid hl hndef
    refine ⟨kind, ?_⟩
    rw [validateLabels]
    exact List.mem_flatMap.mpr ⟨p, hp, List.mem_flatMap.mpr ⟨b, hb, hk⟩⟩
  · intro h1 h2
    simp [compile, h1, h2]
  · intro h
    simp [compile, h]

/-- C2 counterexample: a program whose only branch block is a
jump-if-fader referencing label 7, which no label block defines,
compiles successfully and raises no violation, although the claim says
every branch-type block including jump-if-fader is checked. -/
theorem C2_cex_jumpIfFader_unchecked :
    hasBranchingCommands gFader = true ∧
    Block.jumpIfFader 0 0 7 ∈ secFader.blocks ∧
    definedLabels gFader = [] ∧
    validateLabels gFader = [] ∧
    (compile gFader).isOk = true := by
  refine ⟨?_, ?_, ?_, ?_, ?_⟩ <;> decide

/-- Witness for C2 on a program whose only section jumps to the
undefined label 7: compilation fails with the aggregate violation list. -/
theorem C2_witness :
    hasBranchingCommands gJump = true ∧ validateLabels gJump ≠ [] ∧
    compile gJump = .error (validateLabels gJump) :=
  ⟨by decide, by decide, (C2_label_validation gJump).2.2.1 (by decide) (by decide)⟩

/-- The command byte of a built frame differs from any byte the command
byte cannot be. -/
theorem frame_cmdByte_ne (c c1 : Nat) (p : List Nat) (h1 : byte c ≠ c1) :
    cmdByte (PGP.frame c p) ≠ c1 := h1

/-- The command byte of a frame chosen by rawLineRle is the compressed
or the raw line command. -/
theorem rawLineRle_cmdByte (d : List Nat) :
    cmdByte (PGP.rawLineRle d) = 3 ∨ cmdByte (PGP.rawLineRle d) = 1 := by
  rw [PGP.rawLineRle]
  cases h : PGP.rleEncode d with
  | none => right; rfl
  | some rle =>
      by_cases hlt : rle.length < 64
      · simp only [hlt, if_true]
        left; rfl
      · simp only [hlt, if_false]
        right; rfl

/-- No content block ever emits a program-start or program-end frame:
every emitted frame carries the command byte of its own builder. -/
theorem blockToPGP_cmdByte (b : Block) (f : List Nat) (hf : f ∈ blockToPGP b) :
    cmdByte f ≠ 0x50 ∧ cmdByte f ≠ 0x51 := by
  cases b
  case text x s bf sc mm =>
    by_cases hc : hasCJK s = true
    · simp [blockToPGP, hc] at hf
      subst hf
      exact ⟨frame_cmdByte_ne _ _ _ (by decide), frame_cmdByte_ne _ _ _ (by decide)⟩
    · simp [blockToPGP, hc] at hf
      subst hf
      exact ⟨frame_cmdByte_ne _ _ _ (by decide), frame_cmdByte_ne _ _ _ (by decide)⟩
  case image rows =>
    simp only [blockToPGP, List.mem_map] at hf
    obtain ⟨r, _, rfl⟩ := hf
    rcases rawLineRle_cmdByte r with h | h <;> rw [h] <;>
      exact ⟨by decide, by decide⟩
  all_goals
    (simp [blockToPGP] at hf
     subst hf
     exact ⟨frame_cmdByte_ne _ _ _ (by decide), frame_cmdByte_ne _ _ _ (by decide)⟩)

/-- No frame emitted for a section carries a program marker command. -/
theorem sectionFrames_cmdByte (vars : Nat → Int) (s : GSection) (f : List Nat)
    (hf : f ∈ (sectionFrames vars s).1) :
    cmdByte f ≠ 0x50 ∧ cmdByte f ≠ 0x51 := by
  have hhead : ∀ g ∈ (if modeNum s.feedMode ≠ 0 then [PGP.setMode (modeNum s.feedMode)] else []) ++
      (if s.feedMode = "auto" ∨ modeNum s.feedMode = 0 then [PGP.setSpeed s.speed] else []),
      cmdByte g ≠ 0x50 ∧ cmdByte g ≠ 0x51 := by
    intro g hg
    rcases List.mem_append.mp hg with h | h
    · split_ifs at h with h1
      · simp only [List.mem_singleton] at h
        subst h
        exact ⟨frame_cmdByte_ne _ _ _ (by decide), frame_cmdByte_ne _ _ _ (by decide)⟩
      · simp at h
    · split_ifs at h with h1
      · simp only [List.mem_singleton] at h
        subst h
        exact ⟨frame_cmdByte_ne _ _ _ (by decide), frame_cmdByte_ne _ _ _ (by decide)⟩
      · simp at h
  cases hol : s.onLine with
  | some cb =>
      simp only [sectionFrames, hol] at hf
      rcases List.mem_append.mp hf with h | h
      · exact hhead f h
      · simp only [List.mem_map] at h
        obtain ⟨r, _, rfl⟩ := h
        rcases rawLineRle_cmdByte r with h2 | h2 <;> rw [h2] <;>
          exact ⟨by decide, by decide⟩
  | none =>
      simp only [sectionFrames, hol] at hf
      rcases List.mem_append.mp hf with h | h
      · exact hhead f h
      · rw [List.mem_flatMap] at h
        obtain ⟨b, _, hb⟩ := h
        exact blockToPGP_cmdByte b f hb

/-- No frame emitted for a section sequence carries a program marker
command. -/
theorem emitSections_cmdByte (ss : List GSection) :
    ∀ (vars : Nat → Int) (f : List Nat), f ∈ (emitSections vars ss).1 →
      cmdByte f ≠ 0x50 ∧ cmdByte f ≠ 0x51 := by
  induction ss with
  | nil =>
      intro vars f hf
      simp [emitSections] at hf
  | cons s rest ih =>
      intro vars f hf
      simp only [emitSections] at hf
      rcases List.mem_append.mp hf with h | h
      · exact sectionFrames_cmdByte _ _ _ h
      · exact ih _ _ h

/-- In a non-branching compilation no frame carries a program marker
command byte. -/
theorem compileFrames_no_markers (g : Game) (hB : hasBranchingCommands g = false) :
    ∀ f ∈ compileFrames g, cmdByte f ≠ 0x50 ∧ cmdByte f ≠ 0x51 := by
  intro f hf
  simp only [compileFrames, hB, Bool.false_eq_true, if_false, List.nil_append,
    List.append_assoc] at hf
  rcases List.mem_append.mp hf with h | h
  · simp only [List.mem_map] at h
    obtain ⟨q, _, rfl⟩ := h
    exact ⟨frame_cmdByte_ne _ _ _ (by decide), frame_cmdByte_ne _ _ _ (by decide)⟩
  · rcases List.mem_append.mp h with h2 | h2
    · exact emitSections_cmdByte _ _ _ h2
    · rcases List.mem_append.mp h2 with h3 | h3
      · rcases List.mem_cons.mp h3 with h4 | h4
        · subst h4
          exact ⟨by decide, by decide⟩
        · simp only [List.mem_singleton] at h4
          subst h4
          exact ⟨by decide, by decide⟩
      · simp at h3

/-- Lookup in a table with distinct keys finds the stored pair. -/
theorem lookupSec_eq (g : Game) (hnd : (g.sections.map Prod.fst).Nodup)
    (p : String × GSection) (hp : p ∈ g.sections) : lookupSec g p.1 = some p.2 := by
  rcases p with ⟨id, s⟩
  rw [lookupSec]
  suffices h : ∀ (l : List (String × GSection)), (l.map Prod.fst).Nodup → (id, s) ∈ l →
      (l.find? (fun q => q.1 = id)).map Prod.snd = some s from h g.sections hnd hp
  intro l
  induction l with
  | nil =>
      intro _ hmem
      simp at hmem
  | cons q t ih =>
      intro hnd2 hmem
      simp only [List.map_cons, List.nodup_cons] at hnd2
      by_cases hq : q.1 = id
      · rcases List.mem_cons.mp hmem with heq | hmem2
        · rw [← heq]
          rw [List.find?_cons_of_pos _ (by simp)]
          rfl
        · exfalso
          apply hnd2.1
          rw [hq]
          exact List.mem_map.mpr ⟨(id, s), hmem2, rfl⟩
      · rw [List.find?_cons_of_neg _ (by simp [hq])]
        apply ih hnd2.2
        rcases List.mem_cons.mp hmem with heq | hmem2
        · exfalso
          apply hq
          rw [← heq]
        · exact hmem2

/-- Every section of the table appears in the emission sequence of a
branching compilation: flow sections first, remaining sections after. -/
theorem sections_emitted (g : Game) (hnd : (g.sections.map Prod.fst).Nodup)
    (p : String × GSection) (hp : p ∈ g.sections) :
    p.2 ∈ flowSecs g ++ (remainingSecs g).map Prod.snd := by
  by_cases hc : p.1 ∈ compiledIds g
  · refine List.mem_append.mpr (Or.inl ?_)
    rw [flowSecs]
    rw [compiledIds, List.mem_filter] at hc
    exact List.mem_filterMap.mpr ⟨p.1, hc.1, lookupSec_eq g hnd p hp⟩
  · refine List.mem_append.mpr (Or.inr ?_)
    refine List.mem_map.mpr ⟨p, ?_, rfl⟩
    rw [remainingSecs, List.mem_filter]
    refine ⟨hp, ?_⟩
    simpa [List.elem_iff] using hc

/-- C6: a program none of whose sections holds a control-flow block
compiles without program-start and program-end markers and emits only
the flow-ordered sections; a program with at least one control-flow
block starts with the program-start frame, ends with the program-end
frame, and emits every section of the table, flow-ordered sections
first and the remaining sections after them. -/
theorem C6_program_wrapping (g : Game) (hnd : (g.sections.map Prod.fst).Nodup) :
    ((∀ p ∈ g.sections, ∀ b ∈ p.2.blocks, isBranchingBlock b = false) →
      PGP.programStart ∉ compileFrames g ∧ PGP.programEnd ∉ compileFrames g ∧
      compileFrames g =
        g.sprites.map (fun q => PGP.spriteDef q.2.id q.2.w q.2.h q.2.data) ++
          (emitSections g.vars (flowSecs g)).1 ++ [PGP.feed 16, PGP.stop]) ∧
    ((∃ p ∈ g.sections, ∃ b ∈ p.2.blocks, isBranchingBlock b = true) →
      (compileFrames g).head? = some PGP.programStart ∧
      (compileFrames g).getLast? = some PGP.programEnd ∧
      compileFrames g =
        PGP.programStart ::
          (g.sprites.map (fun q => PGP.spriteDef q.2.id q.2.w q.2.h q.2.data) ++
            (emitSections g.vars (flowSecs g ++ (remainingSecs g).map Prod.snd)).1 ++
            [PGP.feed 16, PGP.stop, PGP.programEnd]) ∧
      ∀ p ∈ g.sections, p.2 ∈ flowSecs g ++ (remainingSecs g).map Prod.snd) := by
  constructor
  · intro h1
    have hB : hasBranchingCommands g = false := by
      rw [hasBranchingCommands]
      simp only [List.any_eq_false]
      intro p hp hcon
      rw [List.any_eq_true] at hcon
      obtain ⟨b, hb, hbb⟩ := hcon
      rw [h1 p hp b hb] at hbb
      simp at hbb
    refine ⟨?_, ?_, ?_⟩
    · intro hmem
      exact (compileFrames_no_markers g hB PGP.programStart hmem).1 rfl
    · intro hmem
      exact (compileFrames_no_markers g hB PGP.programEnd hmem).2 rfl
    · simp [compileFrames, hB, List.append_assoc]
  · intro h2
    have hB : hasBranchingCommands g = true := by
      rw [hasBranchingCommands, List.any_eq_true]
      obtain ⟨p, hp, b, hb, hbb⟩ := h2
      exact ⟨p, hp, List.any_eq_true.mpr ⟨b, hb, hbb⟩⟩
    have heq : compileFrames g =
        PGP.programStart ::
          (g.sprites.map (fun q => PGP.spriteDef q.2.id q.2.w q.2.h q.2.data) ++
            (emitSections g.vars (flowSecs g ++ (remainingSecs g).map Prod.snd)).1 ++
            [PGP.feed 16, PGP.stop, PGP.programEnd]) := by
      simp [compileFrames, hB, List.append_assoc]
    refine ⟨?_, ?_, heq, ?_⟩
    · rw [heq]
      rfl
    · have heq2 : compileFrames g =
          (PGP.programStart ::
            (g.sprites.map (fun q => PGP.spriteDef q.2.id q.2.w q.2.h q.2.data) ++
              (emitSections g.vars (flowSecs g ++ (remainingSecs g).map Prod.snd)).1 ++
              [PGP.feed 16, PGP.stop])) ++ [PGP.programEnd] := by
        rw [heq]
        simp [List.append_assoc]
      rw [heq2, List.getLast?_concat]
    · intro p hp
      exact sections_emitted g hnd p hp

/-- Witness for C6 on the one-section static fixture and on the fixture
extended with a label section outside the flow. -/
theorem C6_witness :
    PGP.programStart ∉ compileFrames gNB ∧
    (compileFrames gBranch).head? = some PGP.programStart ∧
    (compileFrames gBranch).getLast? = some PGP.programEnd ∧
    ("b", secLabel).2 ∈ flowSecs gBranch ++ (remainingSecs gBranch).map Prod.snd :=
  ⟨((C6_program_wrapping gNB (by decide)).1 (by decide)).1,
   ((C6_program_wrapping gBranch (by decide)).2 (by decide)).1,
   ((C6_program_wrapping gBranch (by decide)).2 (by decide)).2.1,
   ((C6_program_wrapping gBranch (by decide)).2 (by decide)).2.2.2 ("b", secLabel)
     (List.Mem.tail _ (List.Mem.head _))⟩

/-- C8: the per-line speed override requested through the dynamic line
context has no effect on the compiled output.  A generator that calls
the speed override on its one line compiles to exactly the same frames
as the identical generator without the call, the output contains no
frame encoding the overridden speed 42, and the emitted frames are only
the section-level speed frame, the compressed blank scanline, and the
feed and stop trailer.  This contradicts the claim, and the
specification, that the override takes effect for that line. -/
theorem C8_setSpeed_ignored :
    compileFrames gDyn = compileFrames gDynPlain ∧
    PGP.setSpeed 42 ∉ compileFrames gDyn ∧
    compileFrames gDyn =
      [PGP.setSpeed 10000, PGP.rawLineRle (List.replicate 72 0), PGP.feed 16, PGP.stop] := by
  refine ⟨?_, ?_, ?_⟩ <;> decide

end SDK
